import Mathlib

/-!
Shallow embedding of the real-time chat core of the health-app backend
(Conversation and Message Mongoose models, the chat controller, and the
Socket.IO handlers), together with theorems settling the specification
claims about it.

Identities, socket ids, conversation ids and message ids are modelled as
`Nat`; Mongoose `Date` values as `Nat` logical timestamps; the Mongoose
`Map` field `unreadCount` as an association list with overwrite-on-set
semantics.
-/

namespace HealthApp

/-- Mongoose `Map.get`: the value stored under key `k`, or `none` when the
key has no entry. -/
def mapGet (m : List (Nat × Nat)) (k : Nat) : Option Nat :=
  (m.find? (fun p => p.1 == k)).map (fun p => p.2)

/-- Mongoose `Map.set`: overwrite the entry for `k` when present, otherwise
append a new entry. -/
def mapSet (m : List (Nat × Nat)) (k v : Nat) : List (Nat × Nat) :=
  if m.any (fun p => p.1 == k) then
    m.map (fun p => if p.1 == k then (k, v) else p)
  else
    m ++ [(k, v)]

/-- Mongoose `Map.delete`: remove the entry for `k` (taken from
`onlineUsers.delete(userId)` in the socket handlers). -/
def mapDelete (m : List (Nat × Nat)) (k : Nat) : List (Nat × Nat) :=
  m.filter (fun p => p.1 != k)

/-- The `conversationType` enum of the Conversation schema. -/
inductive ConvType where
  | direct
  | group
deriving Repr, DecidableEq

/-- The Conversation document (Conversation schema): participants,
last-message pointer and timestamp, per-user unread counters, active flag
and type tag. -/
structure Conversation where
  id : Nat
  participants : List Nat
  lastMessage : Option Nat
  lastMessageAt : Option Nat
  unreadCount : List (Nat × Nat)
  isActive : Bool
  conversationType : ConvType
deriving Repr, DecidableEq

/-- Reads `this.unreadCount.get(userIdStr) || 0`. -/
def Conversation.unreadGet (c : Conversation) (u : Nat) : Nat :=
  (mapGet c.unreadCount u).getD 0

/-- Method `ConversationSchema.methods.incrementUnread`. -/
def Conversation.incrementUnread (c : Conversation) (u : Nat) : Conversation :=
  { c with unreadCount := mapSet c.unreadCount u (c.unreadGet u + 1) }

/-- Method `ConversationSchema.methods.resetUnread`. -/
def Conversation.resetUnread (c : Conversation) (u : Nat) : Conversation :=
  { c with unreadCount := mapSet c.unreadCount u 0 }

/-- Static method `ConversationSchema.statics.findBetweenUsers`: `findOne` on the filter
`participants: { $all: [u1, u2] }, conversationType: 'direct'`.  Note the
filter requires containment of both ids (not set equality) and does not
test `isActive`. -/
def findBetweenUsers (db : List Conversation) (u1 u2 : Nat) : Option Conversation :=
  db.find? (fun c =>
    c.participants.contains u1 && c.participants.contains u2 &&
      c.conversationType == ConvType.direct)

/-- The conversation collection together with the id the database would
assign to the next inserted document. -/
structure Directory where
  convs : List Conversation
  nextConvId : Nat
deriving Repr, DecidableEq

/-- The `Conversation.create` call inside `findOrCreate`: insert a document
with `participants: [u1, u2]` and `unreadCount` holding `0` for both ids
(schema defaults: `isActive: true`, `conversationType: 'direct'`,
`lastMessageAt: Date.now`). -/
def createDirect (d : Directory) (u1 u2 now : Nat) : Conversation × Directory :=
  let c : Conversation :=
    { id := d.nextConvId
      participants := [u1, u2]
      lastMessage := none
      lastMessageAt := some now
      unreadCount := [(u1, 0), (u2, 0)]
      isActive := true
      conversationType := ConvType.direct }
  (c, { convs := d.convs ++ [c], nextConvId := d.nextConvId + 1 })

/-- Static method `ConversationSchema.statics.findOrCreate`: look up with
`findBetweenUsers`; when nothing is found, `create` a new direct
conversation.  Returns the conversation, the updated collection and
whether a document was inserted. -/
def findOrCreate (d : Directory) (u1 u2 : Nat) (now : Nat) :
    Conversation × Directory × Bool :=
  match findBetweenUsers d.convs u1 u2 with
  | some c => (c, d, false)
  | none =>
    let cd := createDirect d u1 u2 now
    (cd.1, cd.2, true)

/-- The `messageType` enum of the Message schema. -/
inductive MsgType where
  | text
  | image
  | file
  | system
deriving Repr, DecidableEq

/-- The Message document (Message schema): owning conversation, sender,
content, type, read records `(user, readAt)`, delivery records
`(user, deliveredAt)`, soft-delete flag and creation timestamp. -/
structure Msg where
  id : Nat
  conversation : Nat
  sender : Nat
  content : String
  messageType : MsgType
  readBy : List (Nat × Nat)
  deliveredTo : List (Nat × Nat)
  isDeleted : Bool
  createdAt : Nat
deriving Repr, DecidableEq

/-- Method `MessageSchema.methods.isReadBy`. -/
def Msg.isReadBy (m : Msg) (u : Nat) : Bool :=
  m.readBy.any (fun r => r.1 == u)

/-- Method `MessageSchema.methods.isDeliveredTo`. -/
def Msg.isDeliveredTo (m : Msg) (u : Nat) : Bool :=
  m.deliveredTo.any (fun r => r.1 == u)

/-- Method `MessageSchema.methods.markAsRead`: append `(u, readAt)` unless `u`
already has a read record.  No check that `u` is a recipient of the
message is performed. -/
def Msg.markAsRead (m : Msg) (u t : Nat) : Msg :=
  if m.isReadBy u then m else { m with readBy := m.readBy ++ [(u, t)] }

/-- Method `MessageSchema.methods.markAsDelivered`: append `(u, deliveredAt)`
unless `u` already has a delivery record. -/
def Msg.markAsDelivered (m : Msg) (u t : Nat) : Msg :=
  if m.isDeliveredTo u then m else { m with deliveredTo := m.deliveredTo ++ [(u, t)] }

/-- The `MessageSchema.post('save')` middleware: after a message document
is saved, `Conversation.findByIdAndUpdate` sets the conversation's
`lastMessage` to the saved document's id and `lastMessageAt` to its
`createdAt`.  It fires on every save of a message document, not only on
the initial insert. -/
def recordLastMessage (c : Conversation) (mid t : Nat) : Conversation :=
  { c with lastMessage := some mid, lastMessageAt := some t }

/-- State of one conversation and its message store, used to model the
event flow of the `send_message` socket handler and the mark-as-read
controller.  `nextId` is the id (and logical creation timestamp) the
store assigns to the next inserted message. -/
structure ChatState where
  conv : Conversation
  msgs : List Msg
  nextId : Nat
deriving Repr, DecidableEq

/-- One successful `send_message` pass over a conversation, as the socket
handler performs it: `Message.create` (whose post-save hook repoints the
conversation's `lastMessage` and `lastMessageAt` to the new document),
then `incrementUnread` for every participant other than the sender. -/
def sendMessage (s : ChatState) (sender : Nat) (content : String) : ChatState :=
  let m : Msg :=
    { id := s.nextId
      conversation := s.conv.id
      sender := sender
      content := content
      messageType := MsgType.text
      readBy := []
      deliveredTo := []
      isDeleted := false
      createdAt := s.nextId }
  let conv1 := recordLastMessage s.conv m.id m.createdAt
  let conv2 := (s.conv.participants.filter (fun p => p != sender)).foldl
    (fun c p => c.incrementUnread p) conv1
  { conv := conv2, msgs := s.msgs ++ [m], nextId := s.nextId + 1 }

/-- Events of a conversation's life relevant to the unread counters: a
successful send, or a `resetUnread` (the Conversation Directory call made
by mark-as-read). -/
inductive ChatEvent where
  | send (sender : Nat) (content : String)
  | reset (u : Nat)
deriving Repr, DecidableEq

/-- Applies one `ChatEvent` to the state. -/
def chatStep (s : ChatState) (e : ChatEvent) : ChatState :=
  match e with
  | .send v content => sendMessage s v content
  | .reset u => { s with conv := s.conv.resetUnread u }

/-- Runs a sequence of `ChatEvent`s. -/
def chatRun (s : ChatState) (evs : List ChatEvent) : ChatState :=
  evs.foldl chatStep s

/-- Whether the event is a send. -/
def ChatEvent.isSend : ChatEvent → Bool
  | .send _ _ => true
  | .reset _ => false

/-- Number of send events in a sequence. -/
def sendCount (evs : List ChatEvent) : Nat :=
  (evs.filter ChatEvent.isSend).length

/-- Whether the event is a send by someone other than `u`. -/
def ChatEvent.isSendByOther (u : Nat) : ChatEvent → Bool
  | .send v _ => v != u
  | .reset _ => false

/-- Whether the event is an unread reset for `u`. -/
def ChatEvent.isResetFor (u : Nat) : ChatEvent → Bool
  | .send _ _ => false
  | .reset v => v == u

/-- Whether the sequence contains an unread reset for `u`. -/
def hasReset (u : Nat) (evs : List ChatEvent) : Bool :=
  evs.any (ChatEvent.isResetFor u)

/-- The number of sends by identities other than `u` that occur after the
last unread reset for `u` (after the start of the sequence when `u` was
never reset). -/
def sendsByOthersSinceLastReset (u : Nat) (evs : List ChatEvent) : Nat :=
  ((evs.reverse.takeWhile (fun e => !(ChatEvent.isResetFor u e))).filter
    (ChatEvent.isSendByOther u)).length

/-- Left fold computing the unread counter a participant `u` should carry
after a sequence of events, starting from `init`: sends by others add one,
a reset for `u` zeroes it, everything else leaves it alone. -/
def unreadTrace (u : Nat) (init : Nat) (evs : List ChatEvent) : Nat :=
  evs.foldl (fun acc e =>
    match e with
    | .send v _ => if v = u then acc else acc + 1
    | .reset v => if v = u then 0 else acc) init

/-- The chat controller's `markAsRead` handler on a conversation the caller
participates in: fetch every message of the conversation not sent by `u`
and not yet read by `u`, call `markAsRead` on each (each such save fires
the post-save middleware, repointing the conversation's last-message
fields at that document), then `resetUnread` for `u`. -/
def markConversationRead (s : ChatState) (u t : Nat) : ChatState :=
  let isUnread : Msg → Bool := fun m =>
    m.conversation == s.conv.id && m.sender != u && !(m.isReadBy u)
  let unreadMsgs := s.msgs.filter isUnread
  let msgs' := s.msgs.map (fun m => if isUnread m then m.markAsRead u t else m)
  let conv' := unreadMsgs.foldl (fun c m => recordLastMessage c m.id m.createdAt) s.conv
  { conv := conv'.resetUnread u, msgs := msgs', nextId := s.nextId }

/-- Newest-first order on messages, the `sort({ createdAt: -1 })` of the
`getMessages` controller. -/
def msgNewerFirst (a b : Msg) : Prop :=
  b.createdAt ≤ a.createdAt

instance : DecidableRel msgNewerFirst :=
  fun a b => inferInstanceAs (Decidable (b.createdAt ≤ a.createdAt))

instance : IsTotal Msg msgNewerFirst :=
  ⟨fun a b => Nat.le_total b.createdAt a.createdAt⟩

instance : IsTrans Msg msgNewerFirst :=
  ⟨fun _ _ _ hab hbc => Nat.le_trans hbc hab⟩

/-- The `createdAt` bound the `getMessages` controller derives from the
`before` cursor: present only when a cursor id is given and
`Message.findById` resolves it. -/
def msgCutoff (msgs : List Msg) (before : Option Nat) : Option Nat :=
  match before with
  | none => none
  | some bid => (msgs.find? (fun m => m.id == bid)).map (fun m => m.createdAt)

/-- The query built by the `getMessages` controller: messages of the
conversation with `isDeleted: false`, and — when the cursor resolves —
`createdAt` strictly less than the cursor message's `createdAt`. -/
def msgQuery (msgs : List Msg) (convId : Nat) (before : Option Nat) : List Msg :=
  msgs.filter (fun m =>
    m.conversation == convId && !m.isDeleted &&
      (match msgCutoff msgs before with
       | none => true
       | some t => decide (m.createdAt < t)))

/-- The `getMessages` controller body after its authorization checks:
run the query, sort newest-first, truncate to `limit`, and reverse so the
caller sees chronological order. -/
def getMessages (msgs : List Msg) (convId : Nat) (before : Option Nat) (limit : Nat) :
    List Msg :=
  ((List.insertionSort msgNewerFirst (msgQuery msgs convId before)).take limit).reverse

/-- Roles a user document can carry, as tested by the `createConversation`
controller. -/
inductive Role where
  | patient
  | doctor
  | admin
deriving Repr, DecidableEq

/-- The part of the User document the `createConversation` controller
reads. -/
structure User where
  id : Nat
  role : Role
deriving Repr, DecidableEq

/-- Outcome of the `createConversation` request/response controller. -/
inductive CreateConvResult where
  | forbidden (msg : String)
  | ok (conv : Conversation) (d : Directory) (created : Bool)
deriving Repr, DecidableEq

/-- The `createConversation` controller after the participant-existence
check: reject patient–patient and doctor–doctor pairings with a 403,
otherwise call `Conversation.findOrCreate`. -/
def createConversation (d : Directory) (cu pu : User) (now : Nat) : CreateConvResult :=
  if cu.role == Role.patient && pu.role == Role.patient then
    .forbidden "Patients can only chat with doctors"
  else if cu.role == Role.doctor && pu.role == Role.doctor then
    .forbidden "Doctors can only chat with patients"
  else
    let r := findOrCreate d cu.id pu.id now
    .ok r.1 r.2.1 r.2.2

/-- Progress of one `findOrCreate` caller when its two awaited database
operations (the `findBetweenUsers` read and the conditional `create`) are
interleaved with other callers: `found` records the outcome of the read
once it has executed, `result` the conversation id the call resolves
to. -/
structure CallerState where
  found : Option (Option Nat)
  result : Option Nat
deriving Repr, DecidableEq

/-- Shared database plus the per-caller progress of concurrent
`findOrCreate(u1, u2)` invocations. -/
structure RaceState where
  dir : Directory
  callers : List CallerState
deriving Repr, DecidableEq

/-- Advance caller `i` by one awaited database operation, exactly as
`findOrCreate` issues them: first the `findBetweenUsers` read, then —
only when that read returned nothing — the `create`. -/
def raceStep (u1 u2 now : Nat) (st : RaceState) (i : Nat) : RaceState :=
  match st.callers[i]? with
  | none => st
  | some cs =>
    match cs.found with
    | none =>
      let r := (findBetweenUsers st.dir.convs u1 u2).map (fun c => c.id)
      { st with callers := st.callers.set i { cs with found := some r } }
    | some (some cid) =>
      { st with callers := st.callers.set i { cs with result := some cid } }
    | some none =>
      let cd := createDirect st.dir u1 u2 now
      { dir := cd.2, callers := st.callers.set i { cs with result := some cd.1.id } }

/-- Runs a schedule (a list of caller indices, each entry letting that
caller perform its next awaited database operation). -/
def raceRun (u1 u2 now : Nat) (st : RaceState) (sched : List Nat) : RaceState :=
  sched.foldl (raceStep u1 u2 now) st

/-- Socket.IO rooms used by the handlers: the per-user room
`user:<id>` and the conversation rooms `conversation:<id>`. -/
inductive Room where
  | user (uid : Nat)
  | conv (cid : Nat)
deriving Repr, DecidableEq

/-- Outbound socket events the handlers emit. -/
inductive SockEvent where
  | userOnline (uid : Nat)
  | userOffline (uid : Nat)
  | newMessage (cid : Nat) (mid : Nat)
  | messageSent (mid : Nat)
  | messageDelivered (mid : Nat) (cid : Nat)
  | errorMsg (s : String)
deriving Repr, DecidableEq

/-- Process state of the Socket.IO layer: live connections
(socket id, identity), the `onlineUsers` map (identity to socket id),
room memberships, the conversation and message collections, and the log
of emitted (target socket, event) pairs. -/
structure SysState where
  sockets : List (Nat × Nat)
  onlineUsers : List (Nat × Nat)
  rooms : List (Room × Nat)
  convs : List Conversation
  msgs : List Msg
  nextMsgId : Nat
  outbox : List (Nat × SockEvent)
deriving Repr, DecidableEq

/-- Socket ids currently subscribed to a room. -/
def roomMembers (rooms : List (Room × Nat)) (r : Room) : List Nat :=
  (rooms.filter (fun q => q.1 == r)).map (fun q => q.2)

/-- Mongoose `Conversation.findById`. -/
def findConv (convs : List Conversation) (cid : Nat) : Option Conversation :=
  convs.find? (fun c => c.id == cid)

/-- Applies an update to the conversation document with the given id. -/
def updateConvs (convs : List Conversation) (cid : Nat) (f : Conversation → Conversation) :
    List Conversation :=
  convs.map (fun c => if c.id == cid then f c else c)

/-- Applies an update to the message document with the given id. -/
def updateMsg (msgs : List Msg) (mid : Nat) (f : Msg → Msg) : List Msg :=
  msgs.map (fun m => if m.id == mid then f m else m)

/-- The `connection` handler: record the connection, register it in
`onlineUsers`, broadcast `user_online` to every other connection, join
the personal room, and auto-join the room of every active conversation
the identity participates in (`joinUserConversations`). -/
def onConnect (s : SysState) (sock uid : Nat) : SysState :=
  let others := (s.sockets.filter (fun q => q.1 != sock)).map (fun q => q.1)
  { s with
    sockets := s.sockets ++ [(sock, uid)]
    onlineUsers := mapSet s.onlineUsers uid sock
    outbox := s.outbox ++ others.map (fun o => (o, SockEvent.userOnline uid))
    rooms := s.rooms ++ [(Room.user uid, sock)] ++
      (s.convs.filter (fun c => c.participants.contains uid && c.isActive)).map
        (fun c => (Room.conv c.id, sock)) }

/-- The `join_conversation` handler: 404-style error event when the
conversation does not resolve, error event `Not authorized` when the
requesting identity is not a participant, room join otherwise. -/
def onJoinConversation (s : SysState) (sock uid cid : Nat) : SysState :=
  match findConv s.convs cid with
  | none => { s with outbox := s.outbox ++ [(sock, SockEvent.errorMsg "Conversation not found")] }
  | some c =>
    if c.participants.contains uid then
      { s with rooms := s.rooms ++ [(Room.conv cid, sock)] }
    else
      { s with outbox := s.outbox ++ [(sock, SockEvent.errorMsg "Not authorized")] }

/-- The `send_message` handler: resolve the conversation, reject
non-participants with an error event, otherwise create the message (the
post-save hook updates the conversation's last-message fields), increment
the unread counter of every other participant, emit `new_message` to the
conversation room, `message_sent` to the sender's socket, and for every
other participant found in `onlineUsers` mark the message delivered (a
further save of the message document, firing the hook again with the same
values) and emit `message_delivered` to that participant's socket. -/
def onSendMessage (s : SysState) (sock uid cid : Nat) (content : String) : SysState :=
  match findConv s.convs cid with
  | none => { s with outbox := s.outbox ++ [(sock, SockEvent.errorMsg "Conversation not found")] }
  | some c =>
    if c.participants.contains uid then
      let m : Msg :=
        { id := s.nextMsgId
          conversation := cid
          sender := uid
          content := content
          messageType := MsgType.text
          readBy := []
          deliveredTo := []
          isDeleted := false
          createdAt := s.nextMsgId }
      let others := c.participants.filter (fun p => p != uid)
      let convs1 := updateConvs s.convs cid (fun c0 => recordLastMessage c0 m.id m.createdAt)
      let convs2 := others.foldl
        (fun acc p => updateConvs acc cid (fun c0 => c0.incrementUnread p)) convs1
      let roomEmits := (roomMembers s.rooms (Room.conv cid)).map
        (fun q => (q, SockEvent.newMessage cid m.id))
      let deliveredPairs := others.filterMap
        (fun p => (mapGet s.onlineUsers p).map (fun ps => (p, ps)))
      let msgs1 := s.msgs ++ [m]
      let msgs2 := deliveredPairs.foldl
        (fun acc pp => updateMsg acc m.id (fun mm => mm.markAsDelivered pp.1 s.nextMsgId)) msgs1
      let convs3 := deliveredPairs.foldl
        (fun acc _ => updateConvs acc cid (fun c0 => recordLastMessage c0 m.id m.createdAt)) convs2
      { s with
        msgs := msgs2
        convs := convs3
        outbox := s.outbox ++ roomEmits ++ [(sock, SockEvent.messageSent m.id)] ++
          deliveredPairs.map (fun pp => (pp.2, SockEvent.messageDelivered m.id cid))
        nextMsgId := s.nextMsgId + 1 }
    else
      { s with outbox := s.outbox ++ [(sock, SockEvent.errorMsg "Not authorized")] }

/-- The `disconnect` handler plus the Socket.IO transport cleanup: the
handler removes the identity from `onlineUsers` and broadcasts
`user_offline`; the transport removes the closed socket from the live
connection set and from every room it had joined.  Nothing here is
conditional on the connection's prior state. -/
def onDisconnect (s : SysState) (sock uid : Nat) : SysState :=
  let sockets' := s.sockets.filter (fun q => q.1 != sock)
  { s with
    sockets := sockets'
    rooms := s.rooms.filter (fun q => q.2 != sock)
    onlineUsers := mapDelete s.onlineUsers uid
    outbox := s.outbox ++ (sockets'.map (fun q => q.1)).map
      (fun o => (o, SockEvent.userOffline uid)) }

/-- Inbound socket actions. -/
inductive Action where
  | connect (sock uid : Nat)
  | joinConv (sock uid cid : Nat)
  | sendMsg (sock uid cid : Nat) (content : String)
  | disconnect (sock uid : Nat)
deriving Repr, DecidableEq

/-- The socket id an action comes from. -/
def Action.sockOf : Action → Nat
  | .connect s _ => s
  | .joinConv s _ _ => s
  | .sendMsg s _ _ _ => s
  | .disconnect s _ => s

/-- The identity attached to an action's socket. -/
def Action.uidOf : Action → Nat
  | .connect _ u => u
  | .joinConv _ u _ => u
  | .sendMsg _ u _ _ => u
  | .disconnect _ u => u

/-- Dispatches one action to its handler. -/
def applyAction (s : SysState) (a : Action) : SysState :=
  match a with
  | .connect sock uid => onConnect s sock uid
  | .joinConv sock uid cid => onJoinConversation s sock uid cid
  | .sendMsg sock uid cid content => onSendMessage s sock uid cid content
  | .disconnect sock uid => onDisconnect s sock uid

/-- Runs a sequence of actions. -/
def runActions (s : SysState) (as : List Action) : SysState :=
  as.foldl applyAction s

/-- Whether an event is a `new_message` event for conversation `cid`. -/
def isNewMessageFor (cid : Nat) : SockEvent → Bool
  | .newMessage c _ => c == cid
  | _ => false

/-- Whether an event is a `new_message` room broadcast (for any
conversation). -/
def isNewMessage : SockEvent → Bool
  | .newMessage _ _ => true
  | _ => false

/-! ### Concrete documents used as counterexample / failing inputs -/

/-- A directory holding one inactive direct conversation that contains
participants 0 and 1 (and also 2). -/
def dEx1 : Directory :=
  { convs := [{ id := 5, participants := [0, 1, 2], lastMessage := none,
                lastMessageAt := none, unreadCount := [], isActive := false,
                conversationType := ConvType.direct }]
    nextConvId := 6 }

/-- A message from identity 1 in conversation 0, unread. -/
def m1Ex : Msg :=
  { id := 1, conversation := 0, sender := 1, content := "hi",
    messageType := MsgType.text, readBy := [], deliveredTo := [],
    isDeleted := false, createdAt := 1 }

/-- A later message from identity 0 in conversation 0. -/
def m2Ex : Msg :=
  { m1Ex with id := 2, sender := 0, createdAt := 2 }

/-- A direct conversation between 0 and 1 whose last message is `m2Ex`
and where participant 0 has one unread message (`m1Ex`). -/
def c7Ex : ChatState :=
  { conv := { id := 0, participants := [0, 1], lastMessage := some 2,
              lastMessageAt := some 2, unreadCount := [(0, 1), (1, 0)],
              isActive := true, conversationType := ConvType.direct }
    msgs := [m1Ex, m2Ex]
    nextId := 3 }

/-- An empty database and two callers about to run `findOrCreate(0, 1)`. -/
def raceEx : RaceState :=
  { dir := { convs := [], nextConvId := 0 }
    callers := [⟨none, none⟩, ⟨none, none⟩] }

/-- A soft-deleted message in conversation 0. -/
def m3Ex : Msg :=
  { m1Ex with id := 3, createdAt := 3, isDeleted := true }

/-- A fresh direct conversation between 0 and 1 with no messages yet. -/
def chatEx : ChatState :=
  { conv := { id := 0, participants := [0, 1], lastMessage := none,
              lastMessageAt := none, unreadCount := [(0, 0), (1, 0)],
              isActive := true, conversationType := ConvType.direct }
    msgs := []
    nextId := 0 }

/-- An event sequence: two sends, a reset for 0, one more send by 1. -/
def evsEx : List ChatEvent :=
  [ChatEvent.send 0 "a", ChatEvent.send 1 "b", ChatEvent.reset 0, ChatEvent.send 1 "c"]

/-- A direct conversation between identities 1 and 2 (identity 3 is not a
participant). -/
def conv6Ex : Conversation :=
  { id := 0, participants := [1, 2], lastMessage := none, lastMessageAt := none,
    unreadCount := [(1, 0), (2, 0)], isActive := true,
    conversationType := ConvType.direct }

/-- A socket-layer state holding only conversation `conv6Ex`. -/
def sys6Ex : SysState :=
  { sockets := [], onlineUsers := [], rooms := [], convs := [conv6Ex],
    msgs := [], nextMsgId := 0, outbox := [] }

/-- A trace in which socket 10 (identity 3, not a participant of
conversation 0) connects and tries to join and send, interleaved with a
legitimate participant's traffic. -/
def acts6Ex : List Action :=
  [Action.connect 10 3, Action.joinConv 10 3 0, Action.connect 11 1,
   Action.sendMsg 11 1 0 "yo", Action.sendMsg 10 3 0 "hack"]

/-- A socket-layer state in which socket 10 (identity 3) is connected,
registered online and subscribed to its personal room and the room of
conversation 0 (participants 1 and 3). -/
def sys8Ex : SysState :=
  { sockets := [(10, 3)], onlineUsers := [(3, 10)],
    rooms := [(Room.user 3, 10), (Room.conv 0, 10)],
    convs := [{ id := 0, participants := [1, 3], lastMessage := none,
                lastMessageAt := none, unreadCount := [(1, 0), (3, 0)],
                isActive := true, conversationType := ConvType.direct }]
    msgs := [], nextMsgId := 0, outbox := [] }

/-- Traffic from another connection after socket 10 disconnected. -/
def acts8Ex : List Action :=
  [Action.connect 11 1, Action.sendMsg 11 1 0 "hi"]

/-! ### Association-list lemmas -/

theorem mapGet_mapSet_self (m : List (Nat × Nat)) (k v : Nat) :
    mapGet (mapSet m k v) k = some v := by
  unfold mapGet mapSet
  by_cases h : m.any (fun p => p.1 == k)
  · simp only [h, if_true]
    induction m with
    | nil => simp at h
    | cons p ps ih =>
      by_cases hp : p.1 = k
      · simp [List.find?, hp]
      · have hp' : (p.1 == k) = false := by simp [hp]
        simp only [List.any_cons, hp', Bool.false_or] at h
        simpa [List.find?, hp'] using ih h
  · simp only [h, if_false]
    induction m with
    | nil => simp [List.find?]
    | cons p ps ih =>
      simp only [List.any_cons, Bool.or_eq_true, not_or] at h
      have hp' : (p.1 == k) = false := by
        cases hpk : (p.1 == k) with
        | true => exact absurd hpk h.1
        | false => rfl
      simpa [List.find?, hp'] using ih (by simpa using h.2)

theorem find?_map_setEntry (ps : List (Nat × Nat)) (k v u : Nat) (h : u ≠ k) :
    List.find? (fun p => p.1 == u) (ps.map (fun p => if p.1 == k then (k, v) else p)) =
      List.find? (fun p => p.1 == u) ps := by
  induction ps with
  | nil => simp
  | cons p ps ih =>
    simp only [List.map_cons]
    by_cases hp : p.1 = k
    · have h1 : (if p.1 == k then (k, v) else p) = ((k, v) : Nat × Nat) := by simp [hp]
      have hku : (((k, v) : Nat × Nat).1 == u) = false := by simpa using Ne.symm h
      have hpu : (p.1 == u) = false := by simpa [hp] using Ne.symm h
      rw [h1, List.find?_cons_of_neg _ (by simpa using hku),
        List.find?_cons_of_neg _ (by simpa using hpu), ih]
    · have h1 : (if p.1 == k then (k, v) else p) = p := by simp [hp]
      rw [h1]
      by_cases hpu : p.1 = u
      · have hpu' : (p.1 == u) = true := by simp [hpu]
        rw [List.find?_cons_of_pos _ (by simpa using hpu'),
          List.find?_cons_of_pos _ (by simpa using hpu')]
      · have hpu' : (p.1 == u) = false := by simp [hpu]
        rw [List.find?_cons_of_neg _ (by simpa using hpu'),
          List.find?_cons_of_neg _ (by simpa using hpu'), ih]

theorem find?_append_setEntry (m : List (Nat × Nat)) (k v u : Nat) (h : u ≠ k) :
    List.find? (fun p => p.1 == u) (m ++ [(k, v)]) =
      List.find? (fun p => p.1 == u) m := by
  induction m with
  | nil =>
    have hku : (((k, v) : Nat × Nat).1 == u) = false := by simpa using Ne.symm h
    simp only [List.nil_append]
    rw [List.find?_cons_of_neg _ (by simpa using hku)]
  | cons p ps ih =>
    simp only [List.cons_append]
    by_cases hpu : p.1 = u
    · have hpu' : (p.1 == u) = true := by simp [hpu]
      rw [List.find?_cons_of_pos _ (by simpa using hpu'),
        List.find?_cons_of_pos _ (by simpa using hpu')]
    · have hpu' : (p.1 == u) = false := by simp [hpu]
      rw [List.find?_cons_of_neg _ (by simpa using hpu'),
        List.find?_cons_of_neg _ (by simpa using hpu'), ih]

theorem mapGet_mapSet_other (m : List (Nat × Nat)) (k v u : Nat) (h : u ≠ k) :
    mapGet (mapSet m k v) u = mapGet m u := by
  unfold mapGet mapSet
  by_cases ha : m.any (fun p => p.1 == k)
  · simp only [ha, if_true]
    rw [find?_map_setEntry m k v u h]
  · simp only [ha, Bool.false_eq_true, if_false]
    rw [find?_append_setEntry m k v u h]

theorem unreadGet_incrementUnread_self (c : Conversation) (u : Nat) :
    (c.incrementUnread u).unreadGet u = c.unreadGet u + 1 := by
  unfold Conversation.incrementUnread Conversation.unreadGet
  simp [mapGet_mapSet_self]

theorem unreadGet_incrementUnread_other (c : Conversation) (u v : Nat) (h : v ≠ u) :
    (c.incrementUnread u).unreadGet v = c.unreadGet v := by
  unfold Conversation.incrementUnread Conversation.unreadGet
  simp [mapGet_mapSet_other _ _ _ _ h]

theorem unreadGet_resetUnread_self (c : Conversation) (u : Nat) :
    (c.resetUnread u).unreadGet u = 0 := by
  unfold Conversation.resetUnread Conversation.unreadGet
  simp [mapGet_mapSet_self]

theorem unreadGet_resetUnread_other (c : Conversation) (u v : Nat) (h : v ≠ u) :
    (c.resetUnread u).unreadGet v = c.unreadGet v := by
  unfold Conversation.resetUnread Conversation.unreadGet
  simp [mapGet_mapSet_other _ _ _ _ h]

theorem isReadBy_markAsRead (m : Msg) (u t : Nat) :
    (m.markAsRead u t).isReadBy u = true := by
  unfold Msg.markAsRead
  by_cases h : m.isReadBy u
  · simp [h]
  · simp only [h, if_false]
    simp [Msg.isReadBy, List.any_append]

theorem isDeliveredTo_markAsDelivered (m : Msg) (u t : Nat) :
    (m.markAsDelivered u t).isDeliveredTo u = true := by
  unfold Msg.markAsDelivered
  by_cases h : m.isDeliveredTo u
  · simp [h]
  · simp only [h, if_false]
    simp [Msg.isDeliveredTo, List.any_append]

theorem markAsRead_of_isReadBy (m : Msg) (u t : Nat) (h : m.isReadBy u = true) :
    m.markAsRead u t = m := by
  simp [Msg.markAsRead, h]

theorem markAsDelivered_of_isDeliveredTo (m : Msg) (u t : Nat)
    (h : m.isDeliveredTo u = true) :
    m.markAsDelivered u t = m := by
  simp [Msg.markAsDelivered, h]

/-! ### Claim C4 -/

/-- C4: `markAsRead` and `markAsDelivered` are idempotent.  A second call
with the same (message, recipient) pair — with any timestamp — returns
the message of the first call unchanged, so the timestamp recorded by the
first call is preserved and no duplicate record for that recipient is
added. -/
theorem markRead_markDelivered_idempotent (m : Msg) (u t t' : Nat) :
    (m.markAsRead u t).markAsRead u t' = m.markAsRead u t ∧
    (m.markAsDelivered u t).markAsDelivered u t' = m.markAsDelivered u t :=
  ⟨markAsRead_of_isReadBy _ u t' (isReadBy_markAsRead m u t),
   markAsDelivered_of_isDeliveredTo _ u t' (isDeliveredTo_markAsDelivered m u t)⟩

/-! ### Claim C1 -/

/-- C1 counterexample: `findOrCreate` does not restrict the lookup to
active conversations with participant set exactly the requested pair.
On a directory holding an inactive direct conversation whose participants
are `[0, 1, 2]`, `findOrCreate 0 1` for the distinct pair (0, 1) returns
that conversation (inactive, and with a third participant) and creates
nothing. -/
theorem findOrCreate_counterexample :
    (findOrCreate dEx1 0 1 9).1.isActive = false ∧
    (findOrCreate dEx1 0 1 9).1.participants = [0, 1, 2] ∧
    (findOrCreate dEx1 0 1 9).2.1 = dEx1 ∧
    (findOrCreate dEx1 0 1 9).2.2 = false := by decide

/-- C1 (amended): `findOrCreate(A, B)` returns a conversation only if it
is a direct conversation whose participants contain both A and B — the
lookup neither requires the `isActive` flag nor that the participant set
be exactly {A, B}; when no direct conversation containing both exists it
creates one with unread-count entries 0 for both A and B; otherwise it
returns the existing conversation without creating a new one. -/
theorem findOrCreate_spec (d : Directory) (u1 u2 now : Nat) :
    (∀ c d', findOrCreate d u1 u2 now = (c, d', false) →
      c ∈ d.convs ∧ u1 ∈ c.participants ∧ u2 ∈ c.participants ∧
        c.conversationType = ConvType.direct ∧ d' = d) ∧
    (∀ c d', findOrCreate d u1 u2 now = (c, d', true) →
      findBetweenUsers d.convs u1 u2 = none ∧
        c.participants = [u1, u2] ∧ c.isActive = true ∧
        c.conversationType = ConvType.direct ∧
        mapGet c.unreadCount u1 = some 0 ∧ mapGet c.unreadCount u2 = some 0 ∧
        d'.convs = d.convs ++ [c]) := by
  constructor
  · intro c d' h
    unfold findOrCreate at h
    cases hf : findBetweenUsers d.convs u1 u2 with
    | none =>
      rw [hf] at h
      simp only at h
      injection h with h1 h2
      injection h2 with h2a h2b
      exact Bool.noConfusion h2b
    | some c0 =>
      rw [hf] at h
      injection h with h1 h2
      injection h2 with h2a h2b
      subst h1
      subst h2a
      unfold findBetweenUsers at hf
      have hmem := List.mem_of_find?_eq_some hf
      have hpred := List.find?_some hf
      simp only [Bool.and_eq_true, beq_iff_eq] at hpred
      exact ⟨hmem, List.mem_of_elem_eq_true hpred.1.1,
        List.mem_of_elem_eq_true hpred.1.2, hpred.2, rfl⟩
  · intro c d' h
    unfold findOrCreate at h
    cases hf : findBetweenUsers d.convs u1 u2 with
    | none =>
      rw [hf] at h
      simp only at h
      injection h with h1 h2
      injection h2 with h2a h2b
      subst h1
      subst h2a
      refine ⟨rfl, rfl, rfl, rfl, ?_, ?_, rfl⟩
      · simp [createDirect, mapGet]
      · by_cases he : u2 = u1
        · subst he
          simp [createDirect, mapGet]
        · have hne : (u1 == u2) = false := by simpa using Ne.symm he
          simp [createDirect, mapGet, List.find?, hne]
    | some c0 =>
      rw [hf] at h
      injection h with h1 h2
      injection h2 with h2a h2b
      exact Bool.noConfusion h2b

/-- Witness for the amended C1 theorem: on the empty directory,
`findOrCreate 0 1` creates a conversation with participants `[0, 1]` and
unread-count entries 0 for both. -/
theorem findOrCreate_spec_witness :
    (findOrCreate ⟨[], 7⟩ 0 1 3).1.participants = [0, 1] ∧
    mapGet (findOrCreate ⟨[], 7⟩ 0 1 3).1.unreadCount 0 = some 0 ∧
    mapGet (findOrCreate ⟨[], 7⟩ 0 1 3).1.unreadCount 1 = some 0 := by
  have h := (findOrCreate_spec ⟨[], 7⟩ 0 1 3).2 (findOrCreate ⟨[], 7⟩ 0 1 3).1
    (findOrCreate ⟨[], 7⟩ 0 1 3).2.1 rfl
  exact ⟨h.2.1, h.2.2.2.2.1, h.2.2.2.2.2.1⟩

/-! ### Claim C5 -/

/-- C5 counterexample: identity 5 is not a participant of conversation 0
(participants `[0, 1]`), yet `markAsRead`/`markAsDelivered` on message
`m1Ex` of that conversation with identity 5 are not no-ops: they append a
record for 5 to the respective record set. -/
theorem markRead_nonrecipient_counterexample :
    (c7Ex.conv.participants.contains 5) = false ∧
    m1Ex.conversation = c7Ex.conv.id ∧
    m1Ex.readBy = [] ∧
    (m1Ex.markAsRead 5 7).readBy = [(5, 7)] ∧
    m1Ex.deliveredTo = [] ∧
    (m1Ex.markAsDelivered 5 7).deliveredTo = [(5, 7)] := by decide

/-- C5 (amended): `markAsRead` and `markAsDelivered` perform no
recipient-validity check at all.  For an identity that is not a valid
recipient of the message (not a participant of the message's conversation
other than the sender) the call still signals no error, but it is not a
no-op: when the identity has no existing record it appends one to the
respective record set; only the other record set is left unchanged.  (The
hypotheses on the conversation are not used by the proof — the outcome is
independent of participation, which is exactly the point.) -/
theorem markRead_nonrecipient_spec (c : Conversation) (m : Msg) (u t : Nat)
    (hconv : m.conversation = c.id)
    (hvalid : ¬(u ∈ c.participants ∧ u ≠ m.sender)) :
    (m.isReadBy u = false → (m.markAsRead u t).readBy = m.readBy ++ [(u, t)]) ∧
    (m.markAsRead u t).deliveredTo = m.deliveredTo ∧
    (m.isDeliveredTo u = false → (m.markAsDelivered u t).deliveredTo = m.deliveredTo ++ [(u, t)]) ∧
    (m.markAsDelivered u t).readBy = m.readBy := by
  refine ⟨fun h => by simp [Msg.markAsRead, h], ?_, fun h => by simp [Msg.markAsDelivered, h], ?_⟩
  · unfold Msg.markAsRead
    by_cases h : m.isReadBy u <;> simp [h]
  · unfold Msg.markAsDelivered
    by_cases h : m.isDeliveredTo u <;> simp [h]

/-- Witness for the amended C5 theorem at message `m1Ex` (conversation 0,
participants `[0, 1]`) and non-participant identity 5. -/
theorem markRead_nonrecipient_spec_witness :
    (m1Ex.markAsRead 5 7).readBy = m1Ex.readBy ++ [(5, 7)] ∧
    (m1Ex.markAsRead 5 7).deliveredTo = m1Ex.deliveredTo := by
  have h := markRead_nonrecipient_spec c7Ex.conv m1Ex 5 7 (by decide) (by decide)
  exact ⟨h.1 (by decide), h.2.1⟩

/-! ### Claim C3 -/

/-- C3: `getMessages` returns at most `limit` messages, all belonging to
the conversation, none soft-deleted, each strictly older (by creation
time) than the cursor message when a resolving cursor is given, in
ascending creation-time order; and the messages returned are the most
recent ones of the query — every queried message left out is no newer
than any returned one.  With no cursor this specializes to: the `limit`
most recent non-deleted messages of the conversation in ascending
order. -/
theorem getMessages_spec (msgs : List Msg) (convId : Nat) (before : Option Nat)
    (limit : Nat) (hpos : 0 < limit) :
    (getMessages msgs convId before limit).length ≤ limit ∧
    (∀ m ∈ getMessages msgs convId before limit,
      m.conversation = convId ∧ m.isDeleted = false ∧
      ∀ bid bm, before = some bid → msgs.find? (fun x => x.id == bid) = some bm →
        m.createdAt < bm.createdAt) ∧
    (getMessages msgs convId before limit).Pairwise
      (fun a b => a.createdAt ≤ b.createdAt) ∧
    (∀ x ∈ getMessages msgs convId before limit,
      ∀ y ∈ msgQuery msgs convId before,
        y ∉ getMessages msgs convId before limit → y.createdAt ≤ x.createdAt) := by
  have hsort : List.Sorted msgNewerFirst
      (List.insertionSort msgNewerFirst (msgQuery msgs convId before)) :=
    List.sorted_insertionSort msgNewerFirst _
  have hperm : List.Perm (List.insertionSort msgNewerFirst (msgQuery msgs convId before))
      (msgQuery msgs convId before) :=
    List.perm_insertionSort msgNewerFirst _
  refine ⟨?_, ?_, ?_, ?_⟩
  · unfold getMessages
    rw [List.length_reverse, List.length_take]
    exact Nat.min_le_left _ _
  · intro m hm
    unfold getMessages at hm
    rw [List.mem_reverse] at hm
    have hm' : m ∈ List.insertionSort msgNewerFirst (msgQuery msgs convId before) :=
      List.mem_of_mem_take hm
    have hmq : m ∈ msgQuery msgs convId before := hperm.mem_iff.mp hm'
    unfold msgQuery at hmq
    obtain ⟨hmem, hpred⟩ := List.mem_filter.mp hmq
    simp only [Bool.and_eq_true, beq_iff_eq, Bool.not_eq_true'] at hpred
    refine ⟨hpred.1.1, hpred.1.2, ?_⟩
    intro bid bm hb hfind
    have hcut : msgCutoff msgs before = some bm.createdAt := by
      unfold msgCutoff
      rw [hb]
      show Option.map (fun m => m.createdAt) (List.find? (fun m => m.id == bid) msgs) =
        some bm.createdAt
      rw [hfind]
      rfl
    rw [hcut] at hpred
    exact of_decide_eq_true hpred.2
  · unfold getMessages
    rw [List.pairwise_reverse]
    exact List.Pairwise.sublist (List.take_sublist _ _) hsort
  · intro x hx y hyq hynotin
    unfold getMessages at hx hynotin
    rw [List.mem_reverse] at hx
    rw [List.mem_reverse] at hynotin
    have hys : y ∈ List.insertionSort msgNewerFirst (msgQuery msgs convId before) :=
      hperm.mem_iff.mpr hyq
    have hsplit := List.take_append_drop limit
      (List.insertionSort msgNewerFirst (msgQuery msgs convId before))
    have hpw : List.Pairwise msgNewerFirst
        ((List.insertionSort msgNewerFirst (msgQuery msgs convId before)).take limit ++
          (List.insertionSort msgNewerFirst (msgQuery msgs convId before)).drop limit) := by
      rw [hsplit]
      exact hsort
    have h3 := (List.pairwise_append.mp hpw).2.2
    have hyd : y ∈ (List.insertionSort msgNewerFirst (msgQuery msgs convId before)).drop limit := by
      rcases List.mem_append.mp (by rw [hsplit]; exact hys) with h | h
      · exact absurd h hynotin
      · exact h
    exact h3 x hx y hyd

/-- Witness for the C3 theorem: three messages in conversation 0 (the
third soft-deleted), no cursor, limit 2. -/
theorem getMessages_spec_witness :
    (getMessages [m1Ex, m2Ex, m3Ex] 0 none 2).length ≤ 2 ∧
    (getMessages [m1Ex, m2Ex, m3Ex] 0 none 2).Pairwise
      (fun a b => a.createdAt ≤ b.createdAt) := by
  have h := getMessages_spec [m1Ex, m2Ex, m3Ex] 0 none 2 (by decide)
  exact ⟨h.1, h.2.2.1⟩

/-! ### Claim C2 -/

theorem foldl_incrementUnread_conv (L : List Nat) (c : Conversation) :
    (L.foldl (fun c p => c.incrementUnread p) c).participants = c.participants ∧
    (L.foldl (fun c p => c.incrementUnread p) c).lastMessage = c.lastMessage ∧
    (L.foldl (fun c p => c.incrementUnread p) c).lastMessageAt = c.lastMessageAt := by
  induction L generalizing c with
  | nil => exact ⟨rfl, rfl, rfl⟩
  | cons p L ih => exact ih (c.incrementUnread p)

theorem foldl_incrementUnread_notmem (L : List Nat) (c : Conversation) (u : Nat)
    (h : u ∉ L) :
    (L.foldl (fun c p => c.incrementUnread p) c).unreadGet u = c.unreadGet u := by
  induction L generalizing c with
  | nil => rfl
  | cons p L ih =>
    have hup : u ≠ p := fun e => h (e ▸ List.mem_cons_self p L)
    have hL : u ∉ L := fun hm => h (List.mem_cons_of_mem _ hm)
    rw [List.foldl_cons, ih _ hL, unreadGet_incrementUnread_other _ _ _ hup]

theorem foldl_incrementUnread_unreadGet (L : List Nat) (c : Conversation) (u : Nat)
    (hnd : L.Nodup) :
    (L.foldl (fun c p => c.incrementUnread p) c).unreadGet u =
      c.unreadGet u + (if u ∈ L then 1 else 0) := by
  induction L generalizing c with
  | nil => simp
  | cons p L ih =>
    rw [List.foldl_cons]
    rcases List.nodup_cons.mp hnd with ⟨hpL, hLnd⟩
    by_cases hup : u = p
    · subst hup
      rw [foldl_incrementUnread_notmem L _ u hpL, unreadGet_incrementUnread_self]
      simp
    · rw [ih _ hLnd, unreadGet_incrementUnread_other _ _ _ hup]
      simp [List.mem_cons, hup]

theorem chatStep_participants (s : ChatState) (e : ChatEvent) :
    (chatStep s e).conv.participants = s.conv.participants := by
  cases e with
  | send v content => exact (foldl_incrementUnread_conv _ _).1
  | reset u => rfl

theorem chatStep_unreadGet (s : ChatState) (e : ChatEvent) (u : Nat)
    (hmem : u ∈ s.conv.participants) (hnd : s.conv.participants.Nodup) :
    (chatStep s e).conv.unreadGet u =
      match e with
      | .send v _ => if v = u then s.conv.unreadGet u else s.conv.unreadGet u + 1
      | .reset v => if v = u then 0 else s.conv.unreadGet u := by
  cases e with
  | send v content =>
    show ((s.conv.participants.filter (fun p => p != v)).foldl
        (fun c p => c.incrementUnread p)
        (recordLastMessage s.conv s.nextId s.nextId)).unreadGet u = _
    rw [foldl_incrementUnread_unreadGet _ _ _ (hnd.filter _)]
    by_cases hvu : v = u
    · rw [hvu]
      have hnotin : u ∉ s.conv.participants.filter (fun p => p != u) := by
        simp [List.mem_filter]
      simp [hnotin]
      rfl
    · have hin : u ∈ s.conv.participants.filter (fun p => p != v) := by
        simp only [List.mem_filter]
        exact ⟨hmem, by simpa using fun e => hvu e.symm⟩
      simp [hin, hvu]
      rfl
  | reset v =>
    show (s.conv.resetUnread v).unreadGet u = _
    by_cases hvu : v = u
    · rw [hvu, unreadGet_resetUnread_self]
      simp
    · rw [unreadGet_resetUnread_other _ _ _ (Ne.symm hvu)]
      simp [hvu]

theorem chatRun_unreadGet (s : ChatState) (evs : List ChatEvent) (u : Nat)
    (hmem : u ∈ s.conv.participants) (hnd : s.conv.participants.Nodup) :
    (chatRun s evs).conv.unreadGet u = unreadTrace u (s.conv.unreadGet u) evs := by
  induction evs generalizing s with
  | nil => rfl
  | cons e evs ih =>
    have hmem' : u ∈ (chatStep s e).conv.participants := by
      rw [chatStep_participants]
      exact hmem
    have hnd' : (chatStep s e).conv.participants.Nodup := by
      rw [chatStep_participants]
      exact hnd
    have hstep := chatStep_unreadGet s e u hmem hnd
    have h1 : chatRun s (e :: evs) = chatRun (chatStep s e) evs := rfl
    rw [h1, ih _ hmem' hnd', hstep]
    cases e <;> rfl

theorem unreadTrace_characterization (u init : Nat) (evs : List ChatEvent) :
    unreadTrace u init evs =
      if hasReset u evs then sendsByOthersSinceLastReset u evs
      else init + sendsByOthersSinceLastReset u evs := by
  induction evs using List.reverseRecOn with
  | nil => simp [unreadTrace, hasReset, sendsByOthersSinceLastReset]
  | append_singleton evs e ih =>
    have htr : unreadTrace u init (evs ++ [e]) =
        (match e with
         | ChatEvent.send v _ => if v = u then unreadTrace u init evs
            else unreadTrace u init evs + 1
         | ChatEvent.reset v => if v = u then 0 else unreadTrace u init evs) := by
      unfold unreadTrace
      rw [List.foldl_append]
      rfl
    cases e with
    | send v content =>
      have hres : hasReset u (evs ++ [ChatEvent.send v content]) = hasReset u evs := by
        simp [hasReset, List.any_append, ChatEvent.isResetFor]
      have hsends : sendsByOthersSinceLastReset u (evs ++ [ChatEvent.send v content]) =
          sendsByOthersSinceLastReset u evs + (if v = u then 0 else 1) := by
        unfold sendsByOthersSinceLastReset
        simp only [List.reverse_append, List.reverse_cons, List.reverse_nil,
          List.nil_append, List.singleton_append, List.takeWhile_cons]
        by_cases hvu : v = u
        · subst hvu
          simp [ChatEvent.isResetFor, ChatEvent.isSendByOther]
        · simp [ChatEvent.isResetFor, ChatEvent.isSendByOther, hvu]
      rw [htr, hres, hsends, ih]
      by_cases hr : hasReset u evs <;> by_cases hvu : v = u <;>
        simp [hr, hvu] <;> omega
    | reset v =>
      have hres : hasReset u (evs ++ [ChatEvent.reset v]) =
          (hasReset u evs || (v == u)) := by
        simp [hasReset, List.any_append, ChatEvent.isResetFor]
      by_cases hvu : v = u
      · rw [hvu] at htr hres ⊢
        have hsends : sendsByOthersSinceLastReset u (evs ++ [ChatEvent.reset u]) = 0 := by
          unfold sendsByOthersSinceLastReset
          simp [List.reverse_append, List.takeWhile_cons, ChatEvent.isResetFor]
        rw [htr, hres, hsends]
        simp
      · have hsends : sendsByOthersSinceLastReset u (evs ++ [ChatEvent.reset v]) =
            sendsByOthersSinceLastReset u evs := by
          unfold sendsByOthersSinceLastReset
          simp [List.reverse_append, List.takeWhile_cons, ChatEvent.isResetFor,
            ChatEvent.isSendByOther, hvu]
        rw [htr, hres, hsends, ih]
        have hbe : (v == u) = false := by simp [hvu]
        simp [hbe, hvu]

theorem chatRun_lastMessage (s : ChatState) (evs : List ChatEvent) :
    (chatRun s evs).msgs.length = s.msgs.length + sendCount evs ∧
    (sendCount evs = 0 →
      (chatRun s evs).conv.lastMessage = s.conv.lastMessage ∧
      (chatRun s evs).conv.lastMessageAt = s.conv.lastMessageAt) ∧
    (0 < sendCount evs →
      ∃ m, (chatRun s evs).msgs.getLast? = some m ∧
        (chatRun s evs).conv.lastMessage = some m.id ∧
        (chatRun s evs).conv.lastMessageAt = some m.createdAt) := by
  induction evs using List.reverseRecOn with
  | nil =>
    refine ⟨by simp [chatRun, sendCount], fun _ => ⟨rfl, rfl⟩, fun h => absurd h (by simp [sendCount])⟩
  | append_singleton evs e ih =>
    have hrun : chatRun s (evs ++ [e]) = chatStep (chatRun s evs) e := by
      unfold chatRun
      rw [List.foldl_append]
      rfl
    cases e with
    | reset v =>
      have hsc : sendCount (evs ++ [ChatEvent.reset v]) = sendCount evs := by
        simp [sendCount, List.filter_append, ChatEvent.isSend]
      rw [hrun, hsc]
      exact ih
    | send v content =>
      have hsc : sendCount (evs ++ [ChatEvent.send v content]) = sendCount evs + 1 := by
        simp [sendCount, List.filter_append, ChatEvent.isSend]
      rw [hrun, hsc]
      refine ⟨?_, ?_, ?_⟩
      · show ((chatRun s evs).msgs ++ [_]).length = _
        rw [List.length_append, ih.1]
        simp [Nat.add_assoc]
      · intro h
        exact absurd h (by omega)
      · intro _
        refine ⟨_, List.getLast?_concat _, ?_, ?_⟩
        · exact (foldl_incrementUnread_conv _ _).2.1
        · exact (foldl_incrementUnread_conv _ _).2.2

/-- C2: over any sequence of send and unread-reset events on a direct
conversation (participants pairwise distinct), the message store grows by
exactly the number of sends; after at least one send the conversation's
`lastMessage` and `lastMessageAt` equal the id and creation time of the
most recently sent message; and each participant's unread counter equals
the number of sends by others since that participant's last unread reset
(plus the initial counter when no reset for that participant occurred). -/
theorem send_sequence_spec (s0 : ChatState) (evs : List ChatEvent) (u : Nat)
    (hmem : u ∈ s0.conv.participants) (hnd : s0.conv.participants.Nodup) :
    ((chatRun s0 evs).msgs.length = s0.msgs.length + sendCount evs) ∧
    (0 < sendCount evs →
      ∃ m, (chatRun s0 evs).msgs.getLast? = some m ∧
        (chatRun s0 evs).conv.lastMessage = some m.id ∧
        (chatRun s0 evs).conv.lastMessageAt = some m.createdAt) ∧
    ((chatRun s0 evs).conv.unreadGet u =
      if hasReset u evs then sendsByOthersSinceLastReset u evs
      else s0.conv.unreadGet u + sendsByOthersSinceLastReset u evs) :=
  ⟨(chatRun_lastMessage s0 evs).1,
   (chatRun_lastMessage s0 evs).2.2,
   by rw [chatRun_unreadGet s0 evs u hmem hnd, unreadTrace_characterization]⟩

/-- Witness for the C2 theorem on a fresh conversation between 0 and 1
with events: send by 0, send by 1, reset for 0, send by 1. -/
theorem send_sequence_spec_witness :
    (chatRun chatEx evsEx).msgs.length = chatEx.msgs.length + sendCount evsEx ∧
    (chatRun chatEx evsEx).conv.unreadGet 0 =
      (if hasReset 0 evsEx then sendsByOthersSinceLastReset 0 evsEx
       else chatEx.conv.unreadGet 0 + sendsByOthersSinceLastReset 0 evsEx) := by
  have h := send_sequence_spec chatEx evsEx 0 (by decide) (by decide)
  exact ⟨h.1, h.2.2⟩

/-! ### Claim C7 -/

/-- C7: evaluation of the mark-conversation-read controller at the failing
input.  Conversation 0 between 0 and 1 has messages `m1Ex` (from 1,
unread by 0) and `m2Ex` (from 0, the latest), with `lastMessage = 2`.
When identity 0 marks the conversation read, the unread reset and the
read-marking behave as claimed, but the post-save middleware fired by the
`markAsRead` save repoints `lastMessage`/`lastMessageAt` at the older
message `m1Ex` — the claim's frame condition (last-message pointer and
timestamp unchanged) is violated by the code. -/
theorem markConversationRead_moves_lastMessage :
    c7Ex.conv.lastMessage = some 2 ∧
    c7Ex.conv.lastMessageAt = some 2 ∧
    (markConversationRead c7Ex 0 5).conv.lastMessage = some 1 ∧
    (markConversationRead c7Ex 0 5).conv.lastMessageAt = some 1 ∧
    (markConversationRead c7Ex 0 5).conv.unreadGet 0 = 0 ∧
    (markConversationRead c7Ex 0 5).conv.unreadGet 1 = c7Ex.conv.unreadGet 1 ∧
    ((markConversationRead c7Ex 0 5).msgs.map (fun m => m.isReadBy 0)) = [true, false] ∧
    m2Ex.sender = 0 := by
  decide

/-! ### Claim C9 -/

/-- C9: the code runs `findOrCreate`'s read and its conditional insert as
two separate awaited operations with no unique constraint, lock or
compare-and-swap.  Interleaving two callers of `findOrCreate(0, 1)` on a
directory with no conversation between 0 and 1 (both reads before either
insert — schedule `[0, 1, 0, 1]`) makes both callers insert: two
conversations are created and the callers resolve to different ids,
contradicting the claimed at-most-one-creation discipline. -/
theorem findOrCreate_race_two_creations :
    findBetweenUsers raceEx.dir.convs 0 1 = none ∧
    (raceRun 0 1 5 raceEx [0, 1, 0, 1]).dir.convs.length = 2 ∧
    ((raceRun 0 1 5 raceEx [0, 1, 0, 1]).callers.map (fun cs => cs.result)) =
      [some 0, some 1] := by
  decide

/-! ### Socket-layer lemmas -/

theorem not_mem_roomMembers (rooms : List (Room × Nat)) (r : Room) (sock : Nat)
    (h : (r, sock) ∉ rooms) : sock ∉ roomMembers rooms r := by
  intro hmem
  unfold roomMembers at hmem
  obtain ⟨q, hq, hq2⟩ := List.mem_map.mp hmem
  obtain ⟨hqr, hqpred⟩ := List.mem_filter.mp hq
  cases q with
  | mk a b =>
    have ha : a = r := by simpa using hqpred
    have hb : b = sock := hq2
    subst ha
    subst hb
    exact h hqr

theorem mapGet_mapDelete_self (m : List (Nat × Nat)) (k : Nat) :
    mapGet (mapDelete m k) k = none := by
  unfold mapGet mapDelete
  have hfind : List.find? (fun p => p.1 == k) (m.filter (fun p => p.1 != k)) = none := by
    apply List.find?_eq_none.mpr
    intro x hx
    have hx2 := (List.mem_filter.mp hx).2
    simp only [bne_iff_ne, ne_eq, decide_eq_true_eq] at hx2
    simp [hx2]
  rw [hfind]
  rfl

theorem step_preserves_noRoom (s : SysState) (a : Action) (sock : Nat)
    (ha : a.sockOf ≠ sock)
    (hP : ∀ r : Room, (r, sock) ∉ s.rooms) :
    ∀ r : Room, (r, sock) ∉ (applyAction s a).rooms := by
  cases a with
  | connect sock' uid' =>
    intro r hmem
    unfold applyAction onConnect at hmem
    simp only at hmem
    rcases List.mem_append.mp hmem with h | h
    · rcases List.mem_append.mp h with h' | h'
      · exact hP r h'
      · have heq := List.mem_singleton.mp h'
        exact ha (Prod.ext_iff.mp heq).2.symm
    · obtain ⟨c, _, hc2⟩ := List.mem_map.mp h
      exact ha (Prod.ext_iff.mp hc2).2
  | joinConv sock' uid' cid =>
    intro r hmem
    unfold applyAction onJoinConversation at hmem
    simp only at hmem
    cases hf : findConv s.convs cid with
    | none =>
      rw [hf] at hmem
      exact hP r hmem
    | some c =>
      rw [hf] at hmem
      by_cases hcont : c.participants.contains uid'
      · simp only [hcont, if_true] at hmem
        rcases List.mem_append.mp hmem with h' | h'
        · exact hP r h'
        · have heq := List.mem_singleton.mp h'
          exact ha (Prod.ext_iff.mp heq).2.symm
      · simp only [hcont, Bool.false_eq_true, if_false] at hmem
        exact hP r hmem
  | sendMsg sock' uid' cid content =>
    intro r hmem
    unfold applyAction onSendMessage at hmem
    simp only at hmem
    cases hf : findConv s.convs cid with
    | none =>
      rw [hf] at hmem
      exact hP r hmem
    | some c =>
      rw [hf] at hmem
      by_cases hcont : c.participants.contains uid'
      · simp only [hcont, if_true] at hmem
        exact hP r hmem
      · simp only [hcont, Bool.false_eq_true, if_false] at hmem
        exact hP r hmem
  | disconnect sock' uid' =>
    intro r hmem
    unfold applyAction onDisconnect at hmem
    simp only at hmem
    exact hP r (List.mem_filter.mp hmem).1

theorem step_outbox_no_newMessage (s : SysState) (a : Action) (sock : Nat)
    (ha : a.sockOf ≠ sock)
    (hP : ∀ r : Room, (r, sock) ∉ s.rooms) :
    ∀ e ∈ (applyAction s a).outbox,
      e ∈ s.outbox ∨ e.1 ≠ sock ∨ isNewMessage e.2 = false := by
  cases a with
  | connect sock' uid' =>
    intro e he
    unfold applyAction onConnect at he
    simp only at he
    rcases List.mem_append.mp he with h | h
    · exact Or.inl h
    · obtain ⟨o, _, ho2⟩ := List.mem_map.mp h
      right
      right
      rw [← ho2]
      rfl
  | joinConv sock' uid' cid =>
    intro e he
    unfold applyAction onJoinConversation at he
    simp only at he
    cases hf : findConv s.convs cid with
    | none =>
      rw [hf] at he
      rcases List.mem_append.mp he with h | h
      · exact Or.inl h
      · have heq := List.mem_singleton.mp h
        right
        right
        rw [heq]
        rfl
    | some c =>
      rw [hf] at he
      by_cases hcont : c.participants.contains uid'
      · simp only [hcont, if_true] at he
        exact Or.inl he
      · simp only [hcont, Bool.false_eq_true, if_false] at he
        rcases List.mem_append.mp he with h | h
        · exact Or.inl h
        · have heq := List.mem_singleton.mp h
          right
          right
          rw [heq]
          rfl
  | sendMsg sock' uid' cid content =>
    intro e he
    unfold applyAction onSendMessage at he
    simp only at he
    cases hf : findConv s.convs cid with
    | none =>
      rw [hf] at he
      rcases List.mem_append.mp he with h | h
      · exact Or.inl h
      · have heq := List.mem_singleton.mp h
        right
        right
        rw [heq]
        rfl
    | some c =>
      rw [hf] at he
      by_cases hcont : c.participants.contains uid'
      · simp only [hcont, if_true] at he
        rcases List.mem_append.mp he with h | h
        · rcases List.mem_append.mp h with h' | h'
          · rcases List.mem_append.mp h' with h'' | h''
            · exact Or.inl h''
            · obtain ⟨q, hq, hq2⟩ := List.mem_map.mp h''
              right
              left
              intro hes
              apply not_mem_roomMembers s.rooms (Room.conv cid) sock (hP _)
              have hq1 : q = sock := by rw [← hes, ← hq2]
              exact hq1 ▸ hq
          · have heq := List.mem_singleton.mp h'
            right
            right
            rw [heq]
            rfl
        · obtain ⟨q, _, hq2⟩ := List.mem_map.mp h
          right
          right
          rw [← hq2]
          rfl
      · simp only [hcont, Bool.false_eq_true, if_false] at he
        rcases List.mem_append.mp he with h | h
        · exact Or.inl h
        · have heq := List.mem_singleton.mp h
          right
          right
          rw [heq]
          rfl
  | disconnect sock' uid' =>
    intro e he
    unfold applyAction onDisconnect at he
    simp only at he
    rcases List.mem_append.mp he with h | h
    · exact Or.inl h
    · obtain ⟨o, _, ho2⟩ := List.mem_map.mp h
      right
      right
      rw [← ho2]
      rfl

theorem runActions_sock_invariants (acts : List Action) (s0 : SysState) (sock : Nat)
    (hacts : ∀ a ∈ acts, a.sockOf ≠ sock)
    (hP : ∀ r : Room, (r, sock) ∉ s0.rooms) :
    (∀ r : Room, (r, sock) ∉ (runActions s0 acts).rooms) ∧
    (∀ e ∈ (runActions s0 acts).outbox,
      e.1 = sock → isNewMessage e.2 = true → e ∈ s0.outbox) := by
  induction acts generalizing s0 with
  | nil => exact ⟨hP, fun e he _ _ => he⟩
  | cons a acts ih =>
    have ha := hacts a (List.mem_cons_self a acts)
    have hacts' : ∀ b ∈ acts, b.sockOf ≠ sock :=
      fun b hb => hacts b (List.mem_cons_of_mem a hb)
    have hP1 := step_preserves_noRoom s0 a sock ha hP
    have hOut1 := step_outbox_no_newMessage s0 a sock ha hP
    obtain ⟨ihP, ihO⟩ := ih (applyAction s0 a) hacts' hP1
    refine ⟨ihP, ?_⟩
    intro e he h1 h2
    rcases hOut1 e (ihO e he h1 h2) with h | h | h
    · exact h
    · exact absurd h1 h
    · rw [h2] at h
      exact Bool.noConfusion h

/-! ### Claim C8 -/

/-- C8: the disconnect transition is unconditional — for every process
state, whatever the connection's prior registration or room membership,
after `onDisconnect` the identity's Presence Registry entry is gone
(`lookup` returns `none`), the socket belongs to no room, and during any
subsequent trace of actions from other sockets the socket stays out of
every room, so no `new_message` room broadcast emitted after the
disconnect targets it. -/
theorem disconnect_cleanup (s : SysState) (sock uid : Nat) (acts : List Action)
    (hacts : ∀ a ∈ acts, a.sockOf ≠ sock) :
    mapGet (onDisconnect s sock uid).onlineUsers uid = none ∧
    (∀ r : Room, (r, sock) ∉ (onDisconnect s sock uid).rooms) ∧
    (∀ r : Room, sock ∉ roomMembers (runActions (onDisconnect s sock uid) acts).rooms r) ∧
    (∀ e ∈ (runActions (onDisconnect s sock uid) acts).outbox,
      e.1 = sock → isNewMessage e.2 = true → e ∈ (onDisconnect s sock uid).outbox) := by
  have hP0 : ∀ r : Room, (r, sock) ∉ (onDisconnect s sock uid).rooms := by
    intro r hmem
    unfold onDisconnect at hmem
    simp only at hmem
    have h2 := (List.mem_filter.mp hmem).2
    simp at h2
  obtain ⟨hrun, hout⟩ := runActions_sock_invariants acts (onDisconnect s sock uid) sock hacts hP0
  refine ⟨?_, hP0, ?_, hout⟩
  · exact mapGet_mapDelete_self s.onlineUsers uid
  · intro r
    exact not_mem_roomMembers _ _ _ (hrun r)

/-- Witness for the C8 theorem: socket 10 (identity 3) disconnects from a
state where it was online and subscribed to two rooms; after further
traffic from socket 11, identity 3 is absent from the presence map and
socket 10 is in no conversation room. -/
theorem disconnect_cleanup_witness :
    mapGet (onDisconnect sys8Ex 10 3).onlineUsers 3 = none ∧
    10 ∉ roomMembers (runActions (onDisconnect sys8Ex 10 3) acts8Ex).rooms (Room.conv 0) := by
  have h := disconnect_cleanup sys8Ex 10 3 acts8Ex (by decide)
  exact ⟨h.1, h.2.2.1 (Room.conv 0)⟩

/-! ### Claim C6 -/

theorem updateConvs_shape (convs : List Conversation) (cid : Nat)
    (f : Conversation → Conversation)
    (hf : ∀ c, (f c).id = c.id ∧ (f c).participants = c.participants) :
    ∀ c' ∈ updateConvs convs cid f,
      ∃ c ∈ convs, c'.id = c.id ∧ c'.participants = c.participants := by
  intro c' hc'
  obtain ⟨c, hc, he⟩ := List.mem_map.mp hc'
  refine ⟨c, hc, ?_⟩
  by_cases hb : (c.id == cid) = true
  · rw [hb] at he
    simp only [if_true] at he
    rw [← he]
    exact hf c
  · rw [Bool.not_eq_true] at hb
    rw [hb] at he
    simp only [Bool.false_eq_true, if_false] at he
    rw [← he]
    exact ⟨rfl, rfl⟩

theorem convsQ_updateConvs (u C : Nat) (convs : List Conversation) (cid : Nat)
    (f : Conversation → Conversation)
    (hf : ∀ c, (f c).id = c.id ∧ (f c).participants = c.participants)
    (hQ : ∀ c ∈ convs, c.id = C → u ∉ c.participants) :
    ∀ c ∈ updateConvs convs cid f, c.id = C → u ∉ c.participants := by
  intro c' hc' hid
  obtain ⟨c, hc, h1, h2⟩ := updateConvs_shape convs cid f hf c' hc'
  rw [h2]
  exact hQ c hc (by rw [← h1]; exact hid)

theorem convsQ_foldl {α : Type} (u C : Nat) (L : List α) (cid : Nat)
    (g : α → Conversation → Conversation)
    (hg : ∀ x c, (g x c).id = c.id ∧ (g x c).participants = c.participants)
    (start : List Conversation)
    (hQ : ∀ c ∈ start, c.id = C → u ∉ c.participants) :
    ∀ c ∈ L.foldl (fun acc x => updateConvs acc cid (g x)) start,
      c.id = C → u ∉ c.participants := by
  induction L generalizing start with
  | nil => exact hQ
  | cons x L ih => exact ih _ (convsQ_updateConvs u C start cid (g x) (hg x) hQ)

theorem c6_step (s : SysState) (a : Action) (u C sock : Nat)
    (ha : a.sockOf = sock → a.uidOf = u)
    (hQ : ∀ c ∈ s.convs, c.id = C → u ∉ c.participants)
    (hR : (Room.conv C, sock) ∉ s.rooms)
    (hO : ∀ e ∈ s.outbox, e.1 = sock → isNewMessageFor C e.2 = false) :
    (∀ c ∈ (applyAction s a).convs, c.id = C → u ∉ c.participants) ∧
    ((Room.conv C, sock) ∉ (applyAction s a).rooms) ∧
    (∀ e ∈ (applyAction s a).outbox, e.1 = sock → isNewMessageFor C e.2 = false) := by
  cases a with
  | connect sock' uid' =>
    refine ⟨?_, ?_, ?_⟩
    · intro c' hc'
      unfold applyAction onConnect at hc'
      simp only at hc'
      exact hQ c' hc'
    · intro hmem
      unfold applyAction onConnect at hmem
      simp only at hmem
      rcases List.mem_append.mp hmem with h | h
      · rcases List.mem_append.mp h with h' | h'
        · exact hR h'
        · have heq := List.mem_singleton.mp h'
          have hfst := congrArg Prod.fst heq
          simpa using hfst
      · obtain ⟨c, hcf, hc2⟩ := List.mem_map.mp h
        obtain ⟨hcm, hcp⟩ := List.mem_filter.mp hcf
        have hsock : sock' = sock := congrArg Prod.snd hc2
        have huid : uid' = u := ha hsock
        have hcid : c.id = C := by
          have hfst := congrArg Prod.fst hc2
          simpa using hfst
        have hcontains : c.participants.contains uid' = true := by
          simp only [Bool.and_eq_true] at hcp
          exact hcp.1
        rw [huid] at hcontains
        exact hQ c hcm hcid (List.mem_of_elem_eq_true hcontains)
    · intro e he
      unfold applyAction onConnect at he
      simp only at he
      rcases List.mem_append.mp he with h | h
      · exact hO e h
      · obtain ⟨o, _, ho2⟩ := List.mem_map.mp h
        intro _
        rw [← ho2]
        rfl
  | joinConv sock' uid' cid =>
    refine ⟨?_, ?_, ?_⟩
    · intro c' hc'
      unfold applyAction onJoinConversation at hc'
      simp only at hc'
      cases hf : findConv s.convs cid with
      | none =>
        rw [hf] at hc'
        exact hQ c' hc'
      | some c =>
        rw [hf] at hc'
        by_cases hcont : c.participants.contains uid'
        · simp only [hcont, if_true] at hc'
          exact hQ c' hc'
        · simp only [hcont, Bool.false_eq_true, if_false] at hc'
          exact hQ c' hc'
    · intro hmem
      unfold applyAction onJoinConversation at hmem
      simp only at hmem
      cases hf : findConv s.convs cid with
      | none =>
        rw [hf] at hmem
        exact hR hmem
      | some c =>
        rw [hf] at hmem
        by_cases hcont : c.participants.contains uid'
        · simp only [hcont, if_true] at hmem
          rcases List.mem_append.mp hmem with h | h
          · exact hR h
          · have heq := List.mem_singleton.mp h
            have hsock : sock' = sock := (congrArg Prod.snd heq).symm
            have hcid : cid = C := by
              have hfst := congrArg Prod.fst heq
              simpa using hfst.symm
            have huid : uid' = u := ha hsock
            unfold findConv at hf
            have hcm := List.mem_of_find?_eq_some hf
            have hcC : c.id = C := by
              have hpred := List.find?_some hf
              have hcc : c.id = cid := by simpa using hpred
              rw [hcc, hcid]
            rw [huid] at hcont
            exact hQ c hcm hcC (List.mem_of_elem_eq_true hcont)
        · simp only [hcont, Bool.false_eq_true, if_false] at hmem
          exact hR hmem
    · intro e he
      unfold applyAction onJoinConversation at he
      simp only at he
      cases hf : findConv s.convs cid with
      | none =>
        rw [hf] at he
        rcases List.mem_append.mp he with h | h
        · exact hO e h
        · have heq := List.mem_singleton.mp h
          intro _
          rw [heq]
          rfl
      | some c =>
        rw [hf] at he
        by_cases hcont : c.participants.contains uid'
        · simp only [hcont, if_true] at he
          exact hO e he
        · simp only [hcont, Bool.false_eq_true, if_false] at he
          rcases List.mem_append.mp he with h | h
          · exact hO e h
          · have heq := List.mem_singleton.mp h
            intro _
            rw [heq]
            rfl
  | sendMsg sock' uid' cid content =>
    refine ⟨?_, ?_, ?_⟩
    · intro c' hc'
      unfold applyAction onSendMessage at hc'
      simp only at hc'
      cases hf : findConv s.convs cid with
      | none =>
        rw [hf] at hc'
        exact hQ c' hc'
      | some c =>
        rw [hf] at hc'
        by_cases hcont : c.participants.contains uid'
        · simp only [hcont, if_true] at hc'
          exact convsQ_foldl u C
            (List.filterMap (fun p => Option.map (fun ps => (p, ps)) (mapGet s.onlineUsers p))
              (List.filter (fun p => p != uid') c.participants))
            cid
            (fun _ c0 => recordLastMessage c0 s.nextMsgId s.nextMsgId)
            (fun _ c0 => ⟨rfl, rfl⟩)
            (List.foldl (fun acc p => updateConvs acc cid (fun c0 => c0.incrementUnread p))
              (updateConvs s.convs cid (fun c0 => recordLastMessage c0 s.nextMsgId s.nextMsgId))
              (List.filter (fun p => p != uid') c.participants))
            (convsQ_foldl u C (List.filter (fun p => p != uid') c.participants) cid
              (fun p c0 => c0.incrementUnread p)
              (fun _ c0 => ⟨rfl, rfl⟩)
              (updateConvs s.convs cid (fun c0 => recordLastMessage c0 s.nextMsgId s.nextMsgId))
              (convsQ_updateConvs u C s.convs cid
                (fun c0 => recordLastMessage c0 s.nextMsgId s.nextMsgId)
                (fun c0 => ⟨rfl, rfl⟩) hQ))
            c' hc'
        · simp only [hcont, Bool.false_eq_true, if_false] at hc'
          exact hQ c' hc'
    · intro hmem
      unfold applyAction onSendMessage at hmem
      simp only at hmem
      cases hf : findConv s.convs cid with
      | none =>
        rw [hf] at hmem
        exact hR hmem
      | some c =>
        rw [hf] at hmem
        by_cases hcont : c.participants.contains uid'
        · simp only [hcont, if_true] at hmem
          exact hR hmem
        · simp only [hcont, Bool.false_eq_true, if_false] at hmem
          exact hR hmem
    · intro e he
      unfold applyAction onSendMessage at he
      simp only at he
      cases hf : findConv s.convs cid with
      | none =>
        rw [hf] at he
        rcases List.mem_append.mp he with h | h
        · exact hO e h
        · have heq := List.mem_singleton.mp h
          intro _
          rw [heq]
          rfl
      | some c =>
        rw [hf] at he
        by_cases hcont : c.participants.contains uid'
        · simp only [hcont, if_true] at he
          rcases List.mem_append.mp he with h | h
          · rcases List.mem_append.mp h with h' | h'
            · rcases List.mem_append.mp h' with h'' | h''
              · exact hO e h''
              · obtain ⟨q, hq, hq2⟩ := List.mem_map.mp h''
                intro hes
                by_cases hcC : cid = C
                · exfalso
                  apply not_mem_roomMembers s.rooms (Room.conv cid) sock
                  · rw [hcC]
                    exact hR
                  · have hq1 : q = sock := by rw [← hes, ← hq2]
                    exact hq1 ▸ hq
                · rw [← hq2]
                  simp [isNewMessageFor, hcC]
            · have heq := List.mem_singleton.mp h'
              intro _
              rw [heq]
              rfl
          · obtain ⟨pp, _, hp2⟩ := List.mem_map.mp h
            intro _
            rw [← hp2]
            rfl
        · simp only [hcont, Bool.false_eq_true, if_false] at he
          rcases List.mem_append.mp he with h | h
          · exact hO e h
          · have heq := List.mem_singleton.mp h
            intro _
            rw [heq]
            rfl
  | disconnect sock' uid' =>
    refine ⟨?_, ?_, ?_⟩
    · intro c' hc'
      unfold applyAction onDisconnect at hc'
      simp only at hc'
      exact hQ c' hc'
    · intro hmem
      unfold applyAction onDisconnect at hmem
      simp only at hmem
      exact hR (List.mem_filter.mp hmem).1
    · intro e he
      unfold applyAction onDisconnect at he
      simp only at he
      rcases List.mem_append.mp he with h | h
      · exact hO e h
      · obtain ⟨o, _, ho2⟩ := List.mem_map.mp h
        intro _
        rw [← ho2]
        rfl

theorem c6_run (acts : List Action) (s0 : SysState) (u C sock : Nat)
    (hacts : ∀ a ∈ acts, a.sockOf = sock → a.uidOf = u)
    (hQ : ∀ c ∈ s0.convs, c.id = C → u ∉ c.participants)
    (hR : (Room.conv C, sock) ∉ s0.rooms)
    (hO : ∀ e ∈ s0.outbox, e.1 = sock → isNewMessageFor C e.2 = false) :
    (∀ c ∈ (runActions s0 acts).convs, c.id = C → u ∉ c.participants) ∧
    ((Room.conv C, sock) ∉ (runActions s0 acts).rooms) ∧
    (∀ e ∈ (runActions s0 acts).outbox, e.1 = sock → isNewMessageFor C e.2 = false) := by
  induction acts generalizing s0 with
  | nil => exact ⟨hQ, hR, hO⟩
  | cons a acts ih =>
    have ha := hacts a (List.mem_cons_self a acts)
    have hacts' : ∀ b ∈ acts, b.sockOf = sock → b.uidOf = u :=
      fun b hb => hacts b (List.mem_cons_of_mem a hb)
    obtain ⟨h1, h2, h3⟩ := c6_step s0 a u C sock ha hQ hR hO
    exact ih (applyAction s0 a) hacts' h1 h2 h3

/-- C6: an identity `u` that is not a participant of conversation `C` can
never receive a `new_message` event for `C` — over any trace of actions
in which `u`'s socket is used only with identity `u`, no `new_message`
event for `C` is ever emitted to that socket — and every
`join_conversation` / `send_message` attempt by `u` against an existing
`C` yields only the `Not authorized` error event to `u`'s own socket,
leaving rooms, conversations (so unread counters) and the message store
unchanged. -/
theorem socket_nonparticipant_forbidden (s0 : SysState) (acts : List Action)
    (u C sock : Nat)
    (h1 : ∀ a ∈ acts, a.sockOf = sock → a.uidOf = u)
    (h2 : ∀ c ∈ s0.convs, c.id = C → u ∉ c.participants)
    (h3 : (Room.conv C, sock) ∉ s0.rooms)
    (h4 : ∀ e ∈ s0.outbox, e.1 = sock → isNewMessageFor C e.2 = false) :
    (∀ e ∈ (runActions s0 acts).outbox, e.1 = sock → isNewMessageFor C e.2 = false) ∧
    (∀ s' : SysState, (∀ c ∈ s'.convs, c.id = C → u ∉ c.participants) →
      ∀ c, findConv s'.convs C = some c →
        onJoinConversation s' sock u C =
          { s' with outbox := s'.outbox ++ [(sock, SockEvent.errorMsg "Not authorized")] }) ∧
    (∀ s' : SysState, (∀ c ∈ s'.convs, c.id = C → u ∉ c.participants) →
      ∀ content c, findConv s'.convs C = some c →
        onSendMessage s' sock u C content =
          { s' with outbox := s'.outbox ++ [(sock, SockEvent.errorMsg "Not authorized")] }) := by
  refine ⟨(c6_run acts s0 u C sock h1 h2 h3 h4).2.2, ?_, ?_⟩
  · intro s' hQ' c hc
    have hcm : c ∈ s'.convs := by
      unfold findConv at hc
      exact List.mem_of_find?_eq_some hc
    have hcC : c.id = C := by
      unfold findConv at hc
      have := List.find?_some hc
      simpa using this
    have hnotin : u ∉ c.participants := hQ' c hcm hcC
    have hcont : c.participants.contains u = false := by
      cases hcc : c.participants.contains u with
      | false => rfl
      | true => exact absurd (List.mem_of_elem_eq_true hcc) hnotin
    unfold onJoinConversation
    rw [hc]
    simp only [hcont, Bool.false_eq_true, if_false]
  · intro s' hQ' content c hc
    have hcm : c ∈ s'.convs := by
      unfold findConv at hc
      exact List.mem_of_find?_eq_some hc
    have hcC : c.id = C := by
      unfold findConv at hc
      have := List.find?_some hc
      simpa using this
    have hnotin : u ∉ c.participants := hQ' c hcm hcC
    have hcont : c.participants.contains u = false := by
      cases hcc : c.participants.contains u with
      | false => rfl
      | true => exact absurd (List.mem_of_elem_eq_true hcc) hnotin
    unfold onSendMessage
    rw [hc]
    simp only [hcont, Bool.false_eq_true, if_false]

/-- Witness for the C6 theorem: identity 3 (socket 10) is not a
participant of conversation 0; its join and send attempts produce only
the `Not authorized` error event and change nothing else. -/
theorem socket_nonparticipant_forbidden_witness :
    onJoinConversation sys6Ex 10 3 0 =
      { sys6Ex with outbox := sys6Ex.outbox ++ [(10, SockEvent.errorMsg "Not authorized")] } ∧
    onSendMessage sys6Ex 10 3 0 "hack" =
      { sys6Ex with outbox := sys6Ex.outbox ++ [(10, SockEvent.errorMsg "Not authorized")] } := by
  have h := socket_nonparticipant_forbidden sys6Ex acts6Ex 3 0 10
    (by decide) (by decide) (by decide) (by decide)
  exact ⟨h.2.1 sys6Ex (by decide) conv6Ex rfl, h.2.2 sys6Ex (by decide) "hack" conv6Ex rfl⟩

/-! ### Claim C10 -/

/-- C10: the find-or-create-conversation controller enforces the role
pairing rule: patient–patient and doctor–doctor pairings fail with a 403
Forbidden before any conversation lookup, and every other pairing
(including any pairing involving an admin) proceeds to
`Conversation.findOrCreate`. -/
theorem createConversation_role_rule (d : Directory) (cu pu : User) (now : Nat) :
    (((cu.role = Role.patient ∧ pu.role = Role.patient) ∨
      (cu.role = Role.doctor ∧ pu.role = Role.doctor)) →
      ∃ msg, createConversation d cu pu now = CreateConvResult.forbidden msg) ∧
    (¬((cu.role = Role.patient ∧ pu.role = Role.patient) ∨
      (cu.role = Role.doctor ∧ pu.role = Role.doctor)) →
      createConversation d cu pu now =
        CreateConvResult.ok (findOrCreate d cu.id pu.id now).1
          (findOrCreate d cu.id pu.id now).2.1 (findOrCreate d cu.id pu.id now).2.2) := by
  constructor
  · rintro (⟨h1, h2⟩ | ⟨h1, h2⟩)
    · exact ⟨"Patients can only chat with doctors", by simp [createConversation, h1, h2]⟩
    · exact ⟨"Doctors can only chat with patients", by simp [createConversation, h1, h2]⟩
  · intro h
    have e1 : (cu.role == Role.patient && pu.role == Role.patient) = false := by
      cases hc : cu.role <;> cases hp : pu.role <;> simp_all
    have e2 : (cu.role == Role.doctor && pu.role == Role.doctor) = false := by
      cases hc : cu.role <;> cases hp : pu.role <;> simp_all
    simp [createConversation, e1, e2]

/-- Witness for the C10 theorem: an admin–patient pairing proceeds to
`findOrCreate`, and a patient–patient pairing is rejected with a 403. -/
theorem createConversation_role_rule_witness :
    createConversation ⟨[], 0⟩ ⟨0, Role.admin⟩ ⟨1, Role.patient⟩ 2 =
      CreateConvResult.ok (findOrCreate ⟨[], 0⟩ 0 1 2).1 (findOrCreate ⟨[], 0⟩ 0 1 2).2.1
        (findOrCreate ⟨[], 0⟩ 0 1 2).2.2 ∧
    (∃ msg, createConversation ⟨[], 0⟩ ⟨0, Role.patient⟩ ⟨1, Role.patient⟩ 2 =
      CreateConvResult.forbidden msg) :=
  ⟨(createConversation_role_rule ⟨[], 0⟩ ⟨0, Role.admin⟩ ⟨1, Role.patient⟩ 2).2 (by decide),
   (createConversation_role_rule ⟨[], 0⟩ ⟨0, Role.patient⟩ ⟨1, Role.patient⟩ 2).1
     (Or.inl ⟨rfl, rfl⟩)⟩

end HealthApp

